import Mathlib

/-!
# Verification of the cmdlp command-line parsing library

Shallow embedding of the cmdlp library (headers under `include/cmdlp/detail/`
plus `include/cmdlp/parser.hpp`, version 1.5.1) and proofs about its
tokenizer, option model, option registry and parser/resolver.

Strings are modelled by Lean `String`; C++ exceptions are modelled by
`Except CmdlpError`; the mutable registry is modelled by explicit state
passing.  Each definition is a direct translation of the corresponding C++
function; deviations (when the C++ source itself is inconsistent) are noted
in the doc comment of the definition concerned.
-/

namespace Cmdlp

/-- The exception taxonomy of the library.  Each constructor mirrors one C++
exception type thrown by the sources: `optionExist` is
`detail::OptionExistException` (the duplicate-registration error),
`invalidArgument` is `std::invalid_argument` (thrown by `MultiOption` for a
value outside the allowed set, i.e. the spec `InvalidValueError`),
`runtimeError` is `std::runtime_error` (structural `PositionalList` misuse),
`parsingError` is `cmdlp::ParsingError` (missing required options, the spec
`MissingRequiredError`), `badConversion` is `detail::BadConversion`, and
`outOfRange` is `std::out_of_range` (the spec `OptionNotFoundError`). -/
inductive CmdlpError where
  | optionExist (msg : String)
  | invalidArgument (msg : String)
  | runtimeError (msg : String)
  | parsingError (msg : String)
  | badConversion (msg : String)
  | outOfRange (msg : String)
  deriving Repr, DecidableEq

/-! ## Tokenizer (`detail/tokenizer.hpp`) -/

/-- The character set used by `Tokenizer::isNumber`:
`token.find_first_not_of("-.eE0123456789") == std::string::npos`. -/
def numberChars : List Char :=
  ['-', '.', 'e', 'E', '0', '1', '2', '3', '4', '5', '6', '7', '8', '9']

/-- Model of `Tokenizer::isNumber`: a non-empty token all of whose characters are
drawn from `-.eE0123456789`. -/
def isNumber (token : String) : Bool :=
  !token.toList.isEmpty && token.toList.all (fun c => numberChars.contains c)

/-- Model of `Tokenizer::isOption`: token is non-empty, starts with `-`, and is not
an `isNumber` token. -/
def isOption (token : String) : Bool :=
  !token.toList.isEmpty && (token.toList.head? == some '-') && !isNumber token

/-- Character-level model of `std::string::substr(0, n)` (characters stand
for bytes; this domain is ASCII). -/
def strTake (s : String) (n : Nat) : String := ⟨s.toList.take n⟩

/-- Character-level model of `std::string::substr(n)`. -/
def strDrop (s : String) (n : Nat) : String := ⟨s.toList.drop n⟩

/-- Character-level model of `rfind(pre, 0) == 0`, i.e. "starts with". -/
def strStartsWith (s pre : String) : Bool := pre.toList.isPrefixOf s.toList

/-- The loop body of `Tokenizer::getOption`, iterating over the tokens after
the program name.  For each token (with access to the following token, as
`std::next(it)` in the source):
* Case 1: the token equals the option and the next token exists and is not
  option-like: return the next token; otherwise keep scanning.
* Case 2: long option with an equals sign (`--option=value`).
* Case 3: short option of length exactly 2 with a concatenated value
  (`-ovalue`). -/
def getOptionAux (option : String) : List String → String
  | [] => ""
  | tok :: rest =>
    if tok == option then
      match rest with
      | next :: _ => if !isOption next then next else getOptionAux option rest
      | [] => getOptionAux option rest
    else if option.length > 2 && strTake option 2 == "--" && strStartsWith tok (option ++ "=") then
      strDrop tok (option.length + 1)
    else if option.length == 2 && strTake option 1 == "-" && strStartsWith tok option
        && tok.length > 2 then
      strDrop tok 2
    else getOptionAux option rest

/-- Model of `Tokenizer::getOption`: scan starts at `std::next(tokens.begin())`,
i.e. the stored token list without the program name. -/
def Tokenizer.getOption (tokens : List String) (option : String) : String :=
  getOptionAux option tokens.tail

/-- Model of `Tokenizer::hasOption`: exact membership among the tokens after the
program name. -/
def Tokenizer.hasOption (tokens : List String) (option : String) : Bool :=
  tokens.tail.contains option

/-! ## Option model (`detail/option.hpp`)

Each C++ class becomes a structure holding exactly the fields of the class
(the `Option` base fields are inlined).  A `Separator` is constructed as
`Option("", "", description)`, so it carries only its description and its
identity accessors return the empty string. -/

structure ValueOption where
  opt_short : String
  opt_long : String
  description : String
  required : Bool
  value : String
  deriving Repr, DecidableEq

structure ToggleOption where
  opt_short : String
  opt_long : String
  description : String
  toggled : Bool
  deriving Repr, DecidableEq

structure MultiOption where
  opt_short : String
  opt_long : String
  description : String
  allowed_values : List String
  selected_value : String
  deriving Repr, DecidableEq

structure PositionalOption where
  opt_short : String
  opt_long : String
  description : String
  required : Bool
  value : String
  deriving Repr, DecidableEq

structure PositionalList where
  opt_short : String
  opt_long : String
  description : String
  required : Bool
  values : List String
  deriving Repr, DecidableEq

structure Separator where
  description : String
  deriving Repr, DecidableEq

/-- The closed set of option variants stored in the registry (the C++ side
stores `std::shared_ptr<Option>` and recovers the variant by
`dynamic_pointer_cast`). -/
inductive Opt where
  | value (v : ValueOption)
  | toggle (t : ToggleOption)
  | multi (m : MultiOption)
  | positional (p : PositionalOption)
  | plist (pl : PositionalList)
  | separator (s : Separator)
  deriving Repr, DecidableEq

/-- The `opt_short` field of the `Option` base class (empty for a
`Separator`, which is constructed with empty names). -/
def Opt.opt_short : Opt → String
  | .value v => v.opt_short
  | .toggle t => t.opt_short
  | .multi m => m.opt_short
  | .positional p => p.opt_short
  | .plist pl => pl.opt_short
  | .separator _ => ""

/-- The `opt_long` field of the `Option` base class (empty for a
`Separator`). -/
def Opt.opt_long : Opt → String
  | .value v => v.opt_long
  | .toggle t => t.opt_long
  | .multi m => m.opt_long
  | .positional p => p.opt_long
  | .plist pl => pl.opt_long
  | .separator _ => ""

/-- Whether the stored option is a `Separator` (the
`dynamic_pointer_cast<Separator>` test in `OptionList::addOption`). -/
def Opt.isSeparator : Opt → Bool
  | .separator _ => true
  | _ => false

/-- Model of `MultiOption::print_list`: the allowed values joined by `", "`. -/
def MultiOption.print_list (m : MultiOption) : String :=
  String.intercalate ", " m.allowed_values

/-- Model of `MultiOption::isValueAllowed`. -/
def MultiOption.isValueAllowed (m : MultiOption) (value : String) : Bool :=
  m.allowed_values.contains value

/-- The error message built by the `MultiOption` constructor and by
`MultiOption::setValue` for a value outside the allowed set. -/
def MultiOption.invalidValueMsg (m : MultiOption) (value : String) : String :=
  "Value \"" ++ value ++ "\" is not in the list of allowed values: " ++ m.print_list

/-- The `MultiOption` constructor: throws `std::invalid_argument` when the
initial value is not allowed; the throw happens before any object becomes
available to the caller. -/
def MultiOption.mk? (opt_short opt_long description : String)
    (allowed_values : List String) (value : String) : Except CmdlpError MultiOption :=
  let m : MultiOption :=
    { opt_short := opt_short, opt_long := opt_long, description := description
      allowed_values := allowed_values, selected_value := value }
  if !m.isValueAllowed m.selected_value then
    .error (.invalidArgument (m.invalidValueMsg m.selected_value))
  else
    .ok m

/-- Model of `MultiOption::setValue`: throws `std::invalid_argument` (before the
assignment, so `selected_value` is not mutated on failure) when the value is
not allowed; otherwise assigns `selected_value`. -/
def MultiOption.setValue (m : MultiOption) (value : String) : Except CmdlpError MultiOption :=
  if !m.isValueAllowed value then
    .error (.invalidArgument (m.invalidValueMsg value))
  else
    .ok { m with selected_value := value }

/-- Model of `PositionalList::print_values`: the values joined by `", "`. -/
def PositionalList.print_values (pl : PositionalList) : String :=
  String.intercalate ", " pl.values

/-- Model of `Option::get_value_length` as overridden by each variant: value length
for `ValueOption`/`PositionalOption`, the constant 5 for `ToggleOption`,
the longest allowed value for `MultiOption`, the longest stored value for
`PositionalList`, and 0 for `Separator`. -/
def Opt.get_value_length : Opt → Nat
  | .value v => v.value.length
  | .toggle _ => 5
  | .multi m => m.allowed_values.foldl (fun acc v => max v.length acc) 0
  | .positional p => p.value.length
  | .plist pl => pl.values.foldl (fun acc v => max acc v.length) 0
  | .separator _ => 0

/-! ## Option registry (`detail/option_list.hpp`) -/

/-- The registry: the ordered list of options plus the three display
maxima. -/
structure OptionList where
  options : List Opt
  longest_short_option : Nat := 0
  longest_long_option : Nat := 0
  longest_value : Nat := 0
  deriving Repr, DecidableEq

/-- The message built by `OptionExistException` from the new and the
existing option. -/
def optionExistMsg (newOption existing : Opt) : String :=
  "Option (" ++ newOption.opt_short ++ ", " ++ newOption.opt_long ++ ") already exists: ("
    ++ existing.opt_short ++ ", " ++ existing.opt_long ++ ")\n"

/-- Model of `OptionList::addOption`, modelling the C++ exception as a returned error
alongside the (unchanged) registry.  A `Separator` skips every check and is
appended without touching the maxima (the source returns early).  Otherwise,
if any stored entry shares the short or the long name, the source throws
`OptionExistException` before the `push_back` and before the maxima updates,
so nothing is mutated; else the option is appended and the three maxima are
updated. -/
def OptionList.addOption (l : OptionList) (option : Opt) : OptionList × Option CmdlpError :=
  if option.isSeparator then
    ({ l with options := l.options ++ [option] }, none)
  else
    match l.options.find? (fun it => it.opt_short == option.opt_short || it.opt_long == option.opt_long) with
    | some it => (l, some (.optionExist (optionExistMsg option it)))
    | none =>
      ({ l with
          options := l.options ++ [option]
          longest_short_option := max option.opt_short.length l.longest_short_option
          longest_long_option := max option.opt_long.length l.longest_long_option
          longest_value := max option.get_value_length l.longest_value }, none)

/-- Model of `OptionList::find`: the first stored option whose short or long name
equals the given name. -/
def OptionList.find (l : OptionList) (option : String) : Option Opt :=
  l.options.find? (fun entry => entry.opt_short == option || entry.opt_long == option)

/-- Model of `OptionList::updateLongestValue`. -/
def OptionList.updateLongestValue (l : OptionList) (length : Nat) : OptionList :=
  { l with longest_value := max length l.longest_value }

/-- The not-found message of the `getOption` specializations. -/
def notFoundMsg (option_string : String) : String :=
  "Option " ++ "'" ++ option_string ++ "'" ++ " not found."

/-- The `std::string` specialization of `OptionList::getOption`: a found
`ValueOption`/`PositionalOption` yields its stored value, a `ToggleOption`
renders as `"true"`/`"false"`, a `MultiOption` yields its stored value
(note: at this point the source reads `mopt->value`, but `MultiOption`
declares no member named `value` — its stored value is the field
`selected_value`, which is what the spec names and what every other use of
the class manipulates, so the stored value field is used here); any other
found variant (`PositionalList`, `Separator`) and an unknown name fall
through to the `std::out_of_range` not-found throw. -/
def OptionList.getOptionString (l : OptionList) (option_string : String) : Except CmdlpError String :=
  match l.find option_string with
  | some (.value v) => .ok v.value
  | some (.toggle t) => .ok (if t.toggled then "true" else "false")
  | some (.multi m) => .ok m.selected_value
  | some (.positional p) => .ok p.value
  | _ => .error (.outOfRange (notFoundMsg option_string))

/-- The `std::vector<std::string>` specialization of `OptionList::getOption`:
succeeds only when the named option is found and is a `PositionalList`;
everything else falls through to the `std::out_of_range` not-found throw. -/
def OptionList.getOptionValues (l : OptionList) (option_string : String) :
    Except CmdlpError (List String) :=
  match l.find option_string with
  | some (.plist pl) => .ok pl.values
  | _ => .error (.outOfRange (notFoundMsg option_string))

/-- The message of the `bool` specialization for a stored string other than
`"true"`/`"false"`. -/
def boolConvMsg (value_str : String) : String :=
  "Failed to convert value " ++ "'" ++ value_str ++ "'" ++ " to bool. Expected " ++ "'" ++ "true"
    ++ "'" ++ " or " ++ "'" ++ "false" ++ "'" ++ "."

/-- The message of the `bool` specialization for a found option that holds
no boolean-convertible value. -/
def boolKindMsg (option_string : String) : String :=
  "Option " ++ "'" ++ option_string ++ "'" ++ " does not hold a convertible boolean value."

/-- The `bool` specialization of `OptionList::getOption`: a found
`ToggleOption` renders as `"true"`/`"false"`, a found `ValueOption` uses its
stored string, any other found variant throws `BadConversion`; the rendered
string must then be literally `"true"` or `"false"`, anything else throws
`BadConversion`; an unknown name throws the `std::out_of_range` not-found
error.  The source tests the toggle cast before the value cast. -/
def OptionList.getOptionBool (l : OptionList) (option_string : String) : Except CmdlpError Bool :=
  match l.find option_string with
  | some option =>
    match (match option with
           | .toggle t => some (if t.toggled then "true" else "false")
           | .value v => some v.value
           | _ => none) with
    | none => .error (.badConversion (boolKindMsg option_string))
    | some value_str =>
      if value_str == "true" then .ok true
      else if value_str == "false" then .ok false
      else .error (.badConversion (boolConvMsg value_str))
  | none => .error (.outOfRange (notFoundMsg option_string))

/-! ## Parser / resolver (`parser.hpp`) -/

/-- The parser: the tokenizer state (the full token list including the
program name at index 0), the registry, and the `option_parsed` flag. -/
structure Parser where
  tokenizer : List String
  options : OptionList
  option_parsed : Bool := false
  deriving Repr, DecidableEq

/-- Model of `Parser::getToggleOptions`: the toggle options of the registry, in
order. -/
def getToggleOptions (opts : List Opt) : List ToggleOption :=
  opts.filterMap (fun o => match o with | .toggle t => some t | _ => none)

/-- Model of `Parser::isToggle`: whether the given name is the short or long name of
one of the toggle options. -/
def isToggle (toggles : List ToggleOption) (option : String) : Bool :=
  toggles.any (fun entry => option == entry.opt_short || option == entry.opt_long)

/-- The lookup shared by `parseValueOption` and `parseMultiOption`: try the
short name through `Tokenizer::getOption`; if the result is empty, try the
long name. -/
def lookupValue (tokens : List String) (opt_short opt_long : String) : String :=
  let value := Tokenizer.getOption tokens opt_short
  if value.isEmpty then Tokenizer.getOption tokens opt_long else value

/-- Model of `Parser::parseValueOption`: look up the short name, then the long name;
an empty result means not found and the option is left untouched (the
function returns `false`); otherwise the value is stored.  The second
component reports whether a value was parsed (the caller then updates the
registry's longest-value maximum). -/
def parseValueOption (tokens : List String) (option : ValueOption) : ValueOption × Bool :=
  let value := lookupValue tokens option.opt_short option.opt_long
  if value.isEmpty then (option, false)
  else ({ option with value := value }, true)

/-- Model of `Parser::parseMultiOption`: same lookup as a value option; a found value
goes through `MultiOption::setValue`, which throws `std::invalid_argument`
for a value outside the allowed set. -/
def parseMultiOption (tokens : List String) (option : MultiOption) :
    Except CmdlpError (MultiOption × Bool) :=
  let value := lookupValue tokens option.opt_short option.opt_long
  if value.isEmpty then .ok (option, false)
  else
    match option.setValue value with
    | .error e => .error e
    | .ok m => .ok (m, true)

/-- Model of `Parser::parseToggleOption`: presence-only check on the short or long
name. -/
def parseToggleOption (tokens : List String) (option : ToggleOption) : ToggleOption :=
  if Tokenizer.hasOption tokens option.opt_short || Tokenizer.hasOption tokens option.opt_long then
    { option with toggled := true }
  else option

/-- The loop of `Parser::parsePositionalOption`, iterating over consecutive
token pairs `(prev, it)` starting from `(tokens[0], tokens[1])`: a token is
skipped when it is option-like, or when the previous token is option-like
and not a toggle name; otherwise it is the next positional token and
`arg_index` is incremented (`arg_index++ == pos_arg_index` selects the
`pos_arg_index`-th positional token). -/
def findPositional (toggles : List ToggleOption) :
    List (String × String) → Nat → Nat → Option String
  | [], _, _ => none
  | (prev, cur) :: rest, arg_index, pos_arg_index =>
    if isOption cur then
      findPositional toggles rest arg_index pos_arg_index
    else if isOption prev && !isToggle toggles prev then
      findPositional toggles rest arg_index pos_arg_index
    else if arg_index == pos_arg_index then
      some cur
    else
      findPositional toggles rest (arg_index + 1) pos_arg_index

/-- Model of `Parser::parsePositionalOption`: assign the `pos_arg_index`-th
positional token if there is one (then advance `pos_arg_index` and report
the new value length for the longest-value update); otherwise leave the
option untouched — missing required positionals are left to
`validateOptions`. -/
def parsePositionalOption (tokens : List String) (toggles : List ToggleOption)
    (option : PositionalOption) (pos_arg_index : Nat) :
    PositionalOption × Nat × Option Nat :=
  match findPositional toggles (tokens.zip tokens.tail) 0 pos_arg_index with
  | some v => ({ option with value := v }, pos_arg_index + 1, some v.length)
  | none => (option, pos_arg_index, none)

/-- The loop of `Parser::parsePositionalList`: same token classification as
`findPositional`; every positional token whose running `arg_index` has
reached `pos_arg_index` is appended to the values (`arg_index++ >=
pos_arg_index`), advancing `pos_arg_index` and updating the longest-value
maximum with the length of `print_values()` of the list so far. -/
def collectPositional (toggles : List ToggleOption) :
    List (String × String) → Nat → Nat → List String → Nat → List String × Nat × Nat
  | [], _, pos_arg_index, values, longest => (values, pos_arg_index, longest)
  | (prev, cur) :: rest, arg_index, pos_arg_index, values, longest =>
    if isOption cur then
      collectPositional toggles rest arg_index pos_arg_index values longest
    else if isOption prev && !isToggle toggles prev then
      collectPositional toggles rest arg_index pos_arg_index values longest
    else if arg_index ≥ pos_arg_index then
      let values := values ++ [cur]
      collectPositional toggles rest (arg_index + 1) (pos_arg_index + 1) values
        (max (String.intercalate ", " values).length longest)
    else
      collectPositional toggles rest (arg_index + 1) pos_arg_index values longest

/-- Model of `Parser::parsePositionalList`: append every remaining positional token
to the list's values — missing required lists are left to
`validateOptions`. -/
def parsePositionalList (tokens : List String) (toggles : List ToggleOption)
    (option : PositionalList) (pos_arg_index longest : Nat) :
    PositionalList × Nat × Nat :=
  let r := collectPositional toggles (tokens.zip tokens.tail) 0 pos_arg_index option.values longest
  ({ option with values := r.1 }, r.2.1, r.2.2)

/-- The loop of `Parser::parseOptions`: visit every option in registration
order, dispatching on the variant in the source's order (value, multi,
toggle, positional, positional list; a separator matches no cast and is
skipped).  The accumulator carries the options already visited (`done`),
the registry's longest-value maximum and the positional cursor
`pos_arg_index`.  The positional steps consult `getToggleOptions()` on the
current full registry, exactly as the source does on each call. -/
def parseLoop (tokens : List String) :
    List Opt → List Opt → Nat → Nat → Except CmdlpError (List Opt × Nat × Nat)
  | done, [], longest, pos_arg_index => .ok (done, longest, pos_arg_index)
  | done, o :: rest, longest, pos_arg_index =>
    match o with
    | .value v =>
      let r := parseValueOption tokens v
      parseLoop tokens (done ++ [.value r.1]) rest
        (if r.2 then max r.1.value.length longest else longest) pos_arg_index
    | .multi m =>
      match parseMultiOption tokens m with
      | .error e => .error e
      | .ok r =>
        parseLoop tokens (done ++ [.multi r.1]) rest
          (if r.2 then max r.1.selected_value.length longest else longest) pos_arg_index
    | .toggle t =>
      parseLoop tokens (done ++ [.toggle (parseToggleOption tokens t)]) rest longest pos_arg_index
    | .positional p =>
      let toggles := getToggleOptions (done ++ o :: rest)
      let r := parsePositionalOption tokens toggles p pos_arg_index
      parseLoop tokens (done ++ [.positional r.1]) rest
        (match r.2.2 with | some n => max n longest | none => longest) r.2.1
    | .plist pl =>
      let toggles := getToggleOptions (done ++ o :: rest)
      let r := parsePositionalList tokens toggles pl pos_arg_index longest
      parseLoop tokens (done ++ [.plist r.1]) rest r.2.2 r.2.1
    | .separator s =>
      parseLoop tokens (done ++ [.separator s]) rest longest pos_arg_index

/-- Model of `Parser::parseOptions`: run the resolver loop over the registry
(`pos_arg_index` starts at 0; the local `used_tokens` set of the source is
never used) and set `option_parsed`.  The loop performs no check for
leftover positional tokens after the last option is visited. -/
def Parser.parseOptions (p : Parser) : Except CmdlpError Parser :=
  match parseLoop p.tokenizer [] p.options.options p.options.longest_value 0 with
  | .error e => .error e
  | .ok r =>
    .ok { p with
            options := { p.options with options := r.1, longest_value := r.2.1 }
            option_parsed := true }

/-- Whether `Parser::validateOptions` flags the option: a required
`ValueOption` or `PositionalOption` with an empty value, or a required
`PositionalList` with no values. -/
def Opt.isMissingRequired : Opt → Bool
  | .value v => v.required && v.value.isEmpty
  | .positional p => p.required && p.value.isEmpty
  | .plist pl => pl.required && pl.values.isEmpty
  | _ => false

/-- The `ParsingError` message `validateOptions` builds for the option. -/
def missingRequiredMsg : Opt → String
  | .value v => "Missing required option: " ++ v.opt_long ++ " [" ++ v.opt_short ++ "]"
  | .positional p => "Missing required positional argument: " ++ p.description
  | .plist pl => "Missing required positional list argument: " ++ pl.description
  | _ => ""

/-- Model of `Parser::validateOptions`: walk the registry in order and throw
`ParsingError` at the first required `ValueOption`/`PositionalOption` whose
value is empty or required `PositionalList` whose values are empty. -/
def validateOptions : List Opt → Except CmdlpError Unit
  | [] => .ok ()
  | o :: rest =>
    if o.isMissingRequired then .error (.parsingError (missingRequiredMsg o))
    else validateOptions rest

/-- Model of `Parser::validateOptions` at the parser level. -/
def Parser.validateOptions (p : Parser) : Except CmdlpError Unit :=
  Cmdlp.validateOptions p.options.options

/-- The `Separator` constructor passes `("", "", description)` to the
`Option` base; `Parser::addSeparator` registers such an object through
`OptionList::addOption`. -/
def Parser.addSeparator (p : Parser) (description : String) : Parser :=
  { p with options := (p.options.addOption (.separator ⟨description⟩)).1 }

/-! ## Specification-side definitions

These definitions restate parts of the spec in order to compare them with
the code: the positional token stream (the classification rule shared by
`parsePositionalOption` and `parsePositionalList`), the per-occurrence value
extraction of the tokenizer lookup, and the signed-number grammar the spec
uses to delimit option-like tokens. -/

/-- The positional token stream induced by the classification rule of the
positional parsing loops: for each consecutive pair `(prev, cur)` of stored
tokens, `cur` is positional iff it is not option-like and `prev` is not an
option-like non-toggle token. -/
def streamOf (toggles : List ToggleOption) (pairs : List (String × String)) : List String :=
  pairs.filterMap (fun pc =>
    if isOption pc.2 then none
    else if isOption pc.1 && !isToggle toggles pc.1 then none
    else some pc.2)

/-- The positional tokens of an argument vector, in left-to-right order. -/
def positionalStream (tokens : List String) (toggles : List ToggleOption) : List String :=
  streamOf toggles (tokens.zip tokens.tail)

/-- The value (if any) that a single scanned token yields for the looked-up
option name in `Tokenizer::getOption`: an exact match whose following token
exists and is not option-like, a `--option=value` form, or a `-ovalue` form
for short options of length 2. -/
def tokenValue (option tok : String) (next : Option String) : Option String :=
  if tok == option then
    match next with
    | some n => if !isOption n then some n else none
    | none => none
  else if option.length > 2 && strTake option 2 == "--" && strStartsWith tok (option ++ "=") then
    some (strDrop tok (option.length + 1))
  else if option.length == 2 && strTake option 1 == "-" && strStartsWith tok option
      && tok.length > 2 then
    some (strDrop tok 2)
  else none

/-- Each scanned token paired with its following token (if any). -/
def withNext : List String → List (String × Option String)
  | [] => []
  | [t] => [(t, none)]
  | t :: n :: rest => (t, some n) :: withNext (n :: rest)

/-- The decimal digit characters. -/
def decDigits : List Char := ['0', '1', '2', '3', '4', '5', '6', '7', '8', '9']

/-- Modelled from the spec: the mantissa of a decimal number — a digit
string, optionally followed by a single decimal point and a digit string,
with at least one digit overall. -/
def mantissaOk (cs : List Char) : Bool :=
  match cs.dropWhile (fun c => decDigits.contains c) with
  | [] => !cs.isEmpty
  | d :: frac =>
    d == '.' && frac.all (fun c => decDigits.contains c) &&
      (!(cs.takeWhile (fun c => decDigits.contains c)).isEmpty || !frac.isEmpty)

/-- The digit part of a spec exponent: the characters after the `e`/`E`,
with one optional leading minus sign stripped. -/
def expDigits (rest : List Char) : List Char :=
  if rest.head? == some '-' then rest.tail else rest

/-- Modelled from the spec: an optional exponent part — empty, or `e`/`E`
followed by an optionally signed non-empty digit string. -/
def exponentOk (cs : List Char) : Bool :=
  match cs with
  | [] => true
  | e :: rest =>
    (e == 'e' || e == 'E') && !(expDigits rest).isEmpty &&
      (expDigits rest).all (fun c => decDigits.contains c)

/-- Modelled from the spec (§4.1): a token "parseable purely as a signed
number/decimal" — an optional minus sign, a mantissa, and an optional
exponent. -/
def isSignedNumberSpec (token : String) : Bool :=
  let cs0 := token.toList
  let cs := if cs0.head? == some '-' then cs0.tail else cs0
  mantissaOk (cs.takeWhile (fun c => !(c == 'e' || c == 'E'))) &&
    exponentOk (cs.dropWhile (fun c => !(c == 'e' || c == 'E')))

/-- Whether the stored option is a `MultiOption`. -/
def Opt.isMulti : Opt → Bool
  | .multi _ => true
  | _ => false

/-- The `MultiOption` class invariant over a whole registry: every stored
`MultiOption` selects one of its allowed values. -/
def multisOk (opts : List Opt) : Bool :=
  opts.all (fun o => match o with
    | .multi m => m.allowed_values.contains m.selected_value
    | _ => true)

/-- A concrete registry holding one option of each variant, used to
evaluate the retrieval functions on every case. -/
def sampleRegistry : OptionList :=
  ⟨[.value ⟨"-s", "--string", "S", false, "hello"⟩,
    .toggle ⟨"-v", "--verbose", "V", false⟩,
    .multi ⟨"-m", "--mode", "M", ["auto", "manual"], "manual"⟩,
    .positional ⟨"-i", "--input", "I", true, "in.txt"⟩,
    .plist ⟨"-f", "--files", "F", false, ["f1", "f2"]⟩,
    .separator ⟨"Section"⟩], 0, 0, 0⟩

/-! ## Helper lemmas -/

/-- Decidable equality on `Except`, so that concrete parse results can be
checked by `decide`. -/
instance {ε α : Type} [DecidableEq ε] [DecidableEq α] : DecidableEq (Except ε α) := fun x y =>
  match x, y with
  | .error a, .error b =>
    if h : a = b then .isTrue (by rw [h]) else .isFalse (fun hc => h (by injection hc))
  | .ok a, .ok b =>
    if h : a = b then .isTrue (by rw [h]) else .isFalse (fun hc => h (by injection hc))
  | .error _, .ok _ => .isFalse (fun hc => by injection hc)
  | .ok _, .error _ => .isFalse (fun hc => by injection hc)

/-- Lemma: `addOption` on a non-separator fails with `OptionExistException` and
leaves the registry untouched whenever any stored entry (separator or not)
shares the short or the long name. -/
theorem addOption_dup (l : OptionList) (o : Opt) (ho : o.isSeparator = false)
    (h : ∃ p ∈ l.options, p.opt_short = o.opt_short ∨ p.opt_long = o.opt_long) :
    (l.addOption o).1 = l ∧ ∃ m, (l.addOption o).2 = some (CmdlpError.optionExist m) := by
  obtain ⟨p, hp, hm⟩ := h
  have hfind :
      (l.options.find? (fun it => it.opt_short == o.opt_short || it.opt_long == o.opt_long)).isSome := by
    rw [List.find?_isSome]
    refine ⟨p, hp, ?_⟩
    rcases hm with hm | hm <;> simp [hm]
  obtain ⟨q, hq⟩ := Option.isSome_iff_exists.mp hfind
  unfold OptionList.addOption
  simp [ho, hq]

/-- Lemma: `validateOptions` succeeds exactly when no option is flagged as missing
required. -/
theorem validateOptions_ok_iff (opts : List Opt) :
    validateOptions opts = .ok () ↔ ∀ o ∈ opts, o.isMissingRequired = false := by
  induction opts with
  | nil => simp [validateOptions]
  | cons o rest ih =>
    cases h : o.isMissingRequired with
    | true => simp [validateOptions, h]
    | false => simp [validateOptions, h, ih]

/-- Lemma: `validateOptions` fails — always with a `ParsingError` — exactly when
some option is flagged as missing required. -/
theorem validateOptions_error_iff (opts : List Opt) :
    (∃ m, validateOptions opts = .error (.parsingError m)) ↔
      ∃ o ∈ opts, o.isMissingRequired = true := by
  induction opts with
  | nil => simp [validateOptions]
  | cons o rest ih =>
    cases h : o.isMissingRequired with
    | true =>
      simp only [validateOptions, h, if_true]
      constructor
      · intro _; exact ⟨o, List.mem_cons_self o rest, h⟩
      · intro _; exact ⟨missingRequiredMsg o, rfl⟩
    | false => simp [validateOptions, h, ih]

/-- Lemma: `setValue` succeeds exactly on allowed values, keeping the allowed set
and storing the value. -/
theorem setValue_ok (m : MultiOption) (v : String) (m' : MultiOption)
    (h : m.setValue v = .ok m') :
    m'.allowed_values = m.allowed_values ∧ m'.selected_value = v ∧
      m.allowed_values.contains v = true := by
  unfold MultiOption.setValue at h
  by_cases hv : m.isValueAllowed v
  · rw [if_neg (by simp [hv])] at h
    injection h with h
    subst h
    exact ⟨rfl, rfl, hv⟩
  · rw [if_pos (by simp [hv])] at h
    exact absurd h (by simp)

/-- Lemma: `setValue` fails — always with `std::invalid_argument` — exactly on
values outside the allowed set. -/
theorem setValue_error (m : MultiOption) (v : String) (e : CmdlpError)
    (h : m.setValue v = .error e) :
    (∃ msg, e = .invalidArgument msg) ∧ m.allowed_values.contains v = false := by
  unfold MultiOption.setValue at h
  by_cases hv : m.isValueAllowed v
  · rw [if_neg (by simp [hv])] at h
    exact absurd h (by simp)
  · rw [if_pos (by simp [hv])] at h
    injection h with h
    refine ⟨⟨_, h.symm⟩, ?_⟩
    simpa [MultiOption.isValueAllowed] using hv

/-- Lemma: `parseMultiOption` can only fail with `std::invalid_argument`. -/
theorem parseMultiOption_error (tokens : List String) (m : MultiOption) (e : CmdlpError)
    (h : parseMultiOption tokens m = .error e) : ∃ msg, e = .invalidArgument msg := by
  simp only [parseMultiOption] at h
  split at h
  · injection h
  · cases hs : m.setValue (lookupValue tokens m.opt_short m.opt_long) with
    | error e2 =>
      rw [hs] at h
      injection h with h
      exact (setValue_error _ _ _ hs).1.imp (fun _ hmsg => h ▸ hmsg)
    | ok m2 =>
      rw [hs] at h
      injection h

/-- A parse-loop failure is always a `std::invalid_argument` error coming
from a `MultiOption` update. -/
theorem parseLoop_error (tokens : List String) :
    ∀ (rest done : List Opt) (lv pi : Nat) (e : CmdlpError),
      parseLoop tokens done rest lv pi = .error e → ∃ msg, e = .invalidArgument msg := by
  intro rest
  induction rest with
  | nil => intro done lv pi e h; simp [parseLoop] at h
  | cons o rest ih =>
    intro done lv pi e h
    cases o with
    | value v => exact ih _ _ _ _ (by simpa [parseLoop] using h)
    | multi m =>
      rw [parseLoop] at h
      cases hm : parseMultiOption tokens m with
      | error e2 =>
        rw [hm] at h
        injection h with h
        exact h ▸ parseMultiOption_error tokens m e2 hm
      | ok r =>
        rw [hm] at h
        exact ih _ _ _ _ h
    | toggle t => exact ih _ _ _ _ (by simpa [parseLoop] using h)
    | positional p => exact ih _ _ _ _ (by simpa [parseLoop] using h)
    | plist pl => exact ih _ _ _ _ (by simpa [parseLoop] using h)
    | separator s => exact ih _ _ _ _ (by simpa [parseLoop] using h)

/-- A registry without `MultiOption` entries always parses successfully. -/
theorem parseLoop_ok_of_no_multi (tokens : List String) :
    ∀ (rest done : List Opt) (lv pi : Nat),
      rest.all (fun o => !o.isMulti) = true →
      ∃ out, parseLoop tokens done rest lv pi = .ok out := by
  intro rest
  induction rest with
  | nil => intro done lv pi _; exact ⟨_, rfl⟩
  | cons o rest ih =>
    intro done lv pi h
    rw [List.all_cons, Bool.and_eq_true] at h
    cases o with
    | value v => simpa [parseLoop] using ih _ _ _ h.2
    | multi m => simp [Opt.isMulti] at h
    | toggle t => simpa [parseLoop] using ih _ _ _ h.2
    | positional p => simpa [parseLoop] using ih _ _ _ h.2
    | plist pl => simpa [parseLoop] using ih _ _ _ h.2
    | separator s => simpa [parseLoop] using ih _ _ _ h.2

/-- Lemma: `parseMultiOption` either leaves the option untouched or routes the
found value through `setValue`. -/
theorem parseMultiOption_ok (tokens : List String) (m : MultiOption)
    (r : MultiOption × Bool) (h : parseMultiOption tokens m = .ok r) :
    r.1 = m ∨ ∃ v, m.setValue v = .ok r.1 := by
  simp only [parseMultiOption] at h
  split at h
  · injection h with h
    exact Or.inl (by rw [← h])
  · cases hs : m.setValue (lookupValue tokens m.opt_short m.opt_long) with
    | error e => rw [hs] at h; injection h
    | ok m2 =>
      rw [hs] at h
      injection h with h
      exact Or.inr ⟨_, by rw [hs, ← h]⟩

/-- Lemma: `multisOk` distributes over list append. -/
theorem multisOk_append (a b : List Opt) : multisOk (a ++ b) = (multisOk a && multisOk b) := by
  simp [multisOk, List.all_append]

/-- Lemma: `multisOk` on a cons, split at the Bool level. -/
theorem multisOk_cons_iff (o : Opt) (rest : List Opt) :
    multisOk (o :: rest) = true ↔
      (match o with
        | .multi m => m.allowed_values.contains m.selected_value
        | _ => true) = true ∧ multisOk rest = true :=
  iff_of_eq (Bool.and_eq_true _ _)

/-- Appending one invariant-respecting option preserves `multisOk`. -/
theorem multisOk_push (done : List Opt) (o : Opt) (hdone : multisOk done = true)
    (ho : (match o with
        | .multi m => m.allowed_values.contains m.selected_value
        | _ => true) = true) :
    multisOk (done ++ [o]) = true := by
  rw [multisOk_append, hdone, Bool.true_and]
  cases o with
  | multi m =>
    show (m.allowed_values.contains m.selected_value && true) = true
    rw [show m.allowed_values.contains m.selected_value = true from ho]
    rfl
  | value v => rfl
  | toggle t => rfl
  | positional p => rfl
  | plist pl => rfl
  | separator s => rfl

/-- The parse loop preserves the `MultiOption` invariant. -/
theorem parseLoop_multis (tokens : List String) :
    ∀ (rest done : List Opt) (lv pi : Nat) (out : List Opt × Nat × Nat),
      parseLoop tokens done rest lv pi = .ok out →
      multisOk done = true → multisOk rest = true → multisOk out.1 = true := by
  intro rest
  induction rest with
  | nil =>
    intro done lv pi out h hdone _
    rw [parseLoop] at h
    injection h with h
    rw [← h]
    exact hdone
  | cons o rest ih =>
    intro done lv pi out h hdone hrest
    obtain ⟨hhead, hrest'⟩ := (multisOk_cons_iff o rest).mp hrest
    cases o with
    | value v =>
      exact ih _ _ _ _ (by simpa [parseLoop] using h) (multisOk_push done _ hdone rfl) hrest'
    | multi m =>
      rw [parseLoop] at h
      cases hm : parseMultiOption tokens m with
      | error e => rw [hm] at h; injection h
      | ok r =>
        rw [hm] at h
        have hr : r.1.allowed_values.contains r.1.selected_value = true := by
          rcases parseMultiOption_ok tokens m r hm with heq | ⟨v, hv⟩
          · rw [heq]; exact hhead
          · obtain ⟨ha, hs, hc⟩ := setValue_ok m v r.1 hv
            rw [ha, hs]; exact hc
        exact ih _ _ _ _ h (multisOk_push done _ hdone hr) hrest'
    | toggle t =>
      exact ih _ _ _ _ (by simpa [parseLoop] using h) (multisOk_push done _ hdone rfl) hrest'
    | positional p =>
      exact ih _ _ _ _ (by simpa [parseLoop] using h) (multisOk_push done _ hdone rfl) hrest'
    | plist pl =>
      exact ih _ _ _ _ (by simpa [parseLoop] using h) (multisOk_push done _ hdone rfl) hrest'
    | separator s =>
      exact ih _ _ _ _ (by simpa [parseLoop] using h) (multisOk_push done _ hdone rfl) hrest'

/-! ## Claim C2 -/

/-- C2 (amended): `parseOptions` never fails for a missing required option —
its only possible failure is the `std::invalid_argument` error of a
`MultiOption` update; the separate `validateOptions` pass succeeds iff no
required `ValueOption`/`PositionalOption`/`PositionalList` is left with an
empty value, raises `ParsingError` iff some such option is left empty, and
reports the first violation in registration order (not all of them at
once). -/
theorem C2_deferred_validation :
    (∀ (p : Parser) (e : CmdlpError), p.parseOptions = .error e → ∃ msg, e = .invalidArgument msg) ∧
    (∀ opts : List Opt, validateOptions opts = .ok () ↔ ∀ o ∈ opts, o.isMissingRequired = false) ∧
    (∀ opts : List Opt,
        (∃ m, validateOptions opts = .error (.parsingError m)) ↔
          ∃ o ∈ opts, o.isMissingRequired = true) ∧
    (∀ (o : Opt) (opts : List Opt), o.isMissingRequired = true →
        validateOptions (o :: opts) = .error (.parsingError (missingRequiredMsg o))) := by
  refine ⟨?_, validateOptions_ok_iff, validateOptions_error_iff, ?_⟩
  · intro p e h
    unfold Parser.parseOptions at h
    cases hr : parseLoop p.tokenizer [] p.options.options p.options.longest_value 0 with
    | error e2 =>
      rw [hr] at h
      injection h with h
      exact h ▸ parseLoop_error _ _ _ _ _ _ hr
    | ok out => rw [hr] at h; injection h
  · intro o opts h
    simp [validateOptions, h]

/-- C2 counterexample: with two missing required options registered, the
reported error names only the first (`--alpha`) although the second
(`--beta`) is also in violation — `validateOptions` does not collect all
violations at once. -/
theorem C2_counterexample :
    validateOptions
        [.value ⟨"-a", "--alpha", "Alpha", true, ""⟩, .value ⟨"-b", "--beta", "Beta", true, ""⟩]
      = .error (.parsingError "Missing required option: --alpha [-a]") ∧
    Opt.isMissingRequired (.value ⟨"-b", "--beta", "Beta", true, ""⟩) = true := by
  exact ⟨rfl, rfl⟩

/-- Witness for C2 at concrete inputs. -/
theorem C2_witness :
    (∃ msg, CmdlpError.invalidArgument
        "Value \"bogus\" is not in the list of allowed values: auto, manual"
      = .invalidArgument msg) ∧
    validateOptions [Opt.value ⟨"-a", "--alpha", "Alpha", true, ""⟩]
      = .error (.parsingError (missingRequiredMsg (.value ⟨"-a", "--alpha", "Alpha", true, ""⟩))) :=
  ⟨C2_deferred_validation.1
      ⟨["prog", "--mode", "bogus"],
        ⟨[.multi ⟨"-m", "--mode", "Mode", ["auto", "manual"], "auto"⟩], 0, 0, 0⟩, false⟩
      _ (by decide),
    C2_deferred_validation.2.2.2 _ [] (by decide)⟩

/-! ## Claim C3 -/

/-- C3 counterexample: with one registered positional option and the two
positional tokens `a`, `b`, the parse completes successfully — the leftover
token `b` is silently ignored, and no unexpected-extra-arguments error is
reported at the end of the parse. -/
theorem C3_counterexample :
    positionalStream ["prog", "a", "b"] [] = ["a", "b"] ∧
    Parser.parseOptions
        ⟨["prog", "a", "b"], ⟨[.positional ⟨"-i", "--input", "Input file", true, ""⟩], 0, 0, 0⟩, false⟩
      = .ok ⟨["prog", "a", "b"],
          ⟨[.positional ⟨"-i", "--input", "Input file", true, "a"⟩], 0, 0, 1⟩, true⟩ := by
  exact ⟨rfl, rfl⟩

/-- C3 (amended): `parseOptions` performs no end-of-parse check on the
positional cursor: its only possible failure is the invalid-argument error
of a `MultiOption` update, a registry without `MultiOption` entries always
parses successfully whatever tokens are left over, and trailing positional
tokens are silently ignored (concrete instance: one positional slot, two
positional tokens, successful parse). -/
theorem C3_no_extra_arguments_check :
    (∀ (p : Parser) (e : CmdlpError), p.parseOptions = .error e → ∃ msg, e = .invalidArgument msg) ∧
    (∀ p : Parser, p.options.options.all (fun o => !o.isMulti) = true →
        ∃ p', p.parseOptions = .ok p') ∧
    (Parser.parseOptions
        ⟨["prog", "a", "b"], ⟨[.positional ⟨"-i", "--input", "Input file", true, ""⟩], 0, 0, 0⟩, false⟩
      = .ok ⟨["prog", "a", "b"],
          ⟨[.positional ⟨"-i", "--input", "Input file", true, "a"⟩], 0, 0, 1⟩, true⟩) := by
  refine ⟨?_, ?_, rfl⟩
  · intro p e h
    unfold Parser.parseOptions at h
    cases hr : parseLoop p.tokenizer [] p.options.options p.options.longest_value 0 with
    | error e2 =>
      rw [hr] at h
      injection h with h
      exact h ▸ parseLoop_error _ _ _ _ _ _ hr
    | ok out => rw [hr] at h; injection h
  · intro p hp
    unfold Parser.parseOptions
    obtain ⟨out, hout⟩ :=
      parseLoop_ok_of_no_multi p.tokenizer p.options.options [] p.options.longest_value 0 hp
    rw [hout]
    exact ⟨_, rfl⟩

/-- Witness for C3 at a concrete parser. -/
theorem C3_witness :
    ∃ p', Parser.parseOptions
        ⟨["prog", "a", "b", "extra"],
          ⟨[.positional ⟨"-i", "--input", "Input file", true, ""⟩], 0, 0, 0⟩, false⟩ = .ok p' :=
  C3_no_extra_arguments_check.2.1 _ (by decide)

/-! ## Claim C4 -/

/-- C4: for every `MultiOption`, `selected_value` is a member of
`allowed_values` at all times: the constructor establishes the invariant
and fails with `std::invalid_argument` (the spec `InvalidValueError`) on a
default outside the allowed set; `setValue` preserves the invariant, and on
a non-member value fails with `std::invalid_argument` without producing any
mutated option (the throw precedes the assignment); and a successful
`parseOptions` run preserves the invariant for every `MultiOption` of the
registry. -/
theorem C4_multi_invariant :
    (∀ (s l d : String) (av : List String) (v : String) (m : MultiOption),
        MultiOption.mk? s l d av v = .ok m →
          m.allowed_values.contains m.selected_value = true) ∧
    (∀ (s l d : String) (av : List String) (v : String) (e : CmdlpError),
        MultiOption.mk? s l d av v = .error e →
          (∃ msg, e = .invalidArgument msg) ∧ av.contains v = false) ∧
    (∀ (m : MultiOption) (v : String) (m' : MultiOption),
        m.setValue v = .ok m' →
          m'.allowed_values.contains m'.selected_value = true ∧
            m'.allowed_values = m.allowed_values) ∧
    (∀ (m : MultiOption) (v : String) (e : CmdlpError),
        m.setValue v = .error e →
          (∃ msg, e = .invalidArgument msg) ∧ m.allowed_values.contains v = false) ∧
    (∀ (p p' : Parser), multisOk p.options.options = true → p.parseOptions = .ok p' →
        multisOk p'.options.options = true) := by
  refine ⟨?_, ?_, ?_, ?_, ?_⟩
  · intro s l d av v m h
    simp only [MultiOption.mk?] at h
    split at h
    · injection h
    · next hcond =>
      injection h with h
      subst h
      simpa [MultiOption.isValueAllowed] using hcond
  · intro s l d av v e h
    simp only [MultiOption.mk?] at h
    split at h
    · next hcond =>
      injection h with h
      refine ⟨⟨_, h.symm⟩, ?_⟩
      simpa [MultiOption.isValueAllowed] using hcond
    · injection h
  · intro m v m' h
    obtain ⟨ha, hs, hc⟩ := setValue_ok m v m' h
    exact ⟨by rw [ha, hs]; exact hc, ha⟩
  · intro m v e h
    exact setValue_error m v e h
  · intro p p' hmul h
    unfold Parser.parseOptions at h
    cases hr : parseLoop p.tokenizer [] p.options.options p.options.longest_value 0 with
    | error e => rw [hr] at h; injection h
    | ok out =>
      rw [hr] at h
      injection h with h
      rw [← h]
      exact parseLoop_multis _ _ _ _ _ _ hr rfl hmul

/-- Witness for C4 at concrete inputs. -/
theorem C4_witness :
    (MultiOption.mk "-m" "--mode" "Mode" ["auto", "manual"] "auto").allowed_values.contains
        (MultiOption.mk "-m" "--mode" "Mode" ["auto", "manual"] "auto").selected_value = true ∧
    multisOk [.multi ⟨"-m", "--mode", "Mode", ["auto", "test"], "test"⟩] = true :=
  ⟨C4_multi_invariant.1 "-m" "--mode" "Mode" ["auto", "manual"] "auto" _ (by decide),
    C4_multi_invariant.2.2.2.2
      ⟨["prog", "--mode", "test"],
        ⟨[.multi ⟨"-m", "--mode", "Mode", ["auto", "test"], "auto"⟩], 0, 0, 0⟩, false⟩
      ⟨["prog", "--mode", "test"],
        ⟨[.multi ⟨"-m", "--mode", "Mode", ["auto", "test"], "test"⟩], 0, 0, 4⟩, true⟩
      (by decide) (by decide)⟩

/-! ## Claims C7 and C10 -/

/-- C7: registering a non-separator option whose short or long name equals
the short or long name of an already-registered non-separator option always
fails with the duplicate-option error (`OptionExistException`), and the
registry afterwards is unchanged — same size, same stored options, same
display maxima. -/
theorem C7_duplicate_option_rejected (l : OptionList) (o : Opt)
    (ho : o.isSeparator = false)
    (h : ∃ p ∈ l.options,
        p.isSeparator = false ∧ (p.opt_short = o.opt_short ∨ p.opt_long = o.opt_long)) :
    (l.addOption o).1 = l ∧ ∃ m, (l.addOption o).2 = some (CmdlpError.optionExist m) := by
  obtain ⟨p, hp, _, hm⟩ := h
  exact addOption_dup l o ho ⟨p, hp, hm⟩

/-- Witness for C7 at a concrete registry. -/
theorem C7_witness :
    ((OptionList.mk [.value ⟨"-a", "--alpha", "A", false, ""⟩] 2 7 0).addOption
        (.toggle ⟨"-a", "--all", "B", false⟩)).1
      = OptionList.mk [.value ⟨"-a", "--alpha", "A", false, ""⟩] 2 7 0 ∧
    ∃ m, ((OptionList.mk [.value ⟨"-a", "--alpha", "A", false, ""⟩] 2 7 0).addOption
        (.toggle ⟨"-a", "--all", "B", false⟩)).2 = some (CmdlpError.optionExist m) :=
  C7_duplicate_option_rejected _ _ (by decide)
    ⟨.value ⟨"-a", "--alpha", "A", false, ""⟩, by simp, by decide, by decide⟩

/-- C10: empty names participate in duplicate detection.  A non-separator
option with an empty short (resp. long) name collides with any stored entry
with an empty short (resp. long) name — separators included, since a
`Separator` is stored with both names empty and `addOption` checks the new
non-separator against every stored entry; hence two options registered with
only long names cannot coexist, and after a separator is registered no
option with an empty short or long name can be added.  In each case the
failing registry is unchanged. -/
theorem C10_empty_name_collisions :
    (∀ (l : OptionList) (o : Opt), o.isSeparator = false → o.opt_short = "" →
        (∃ p ∈ l.options, p.opt_short = "") →
        (l.addOption o).1 = l ∧ ∃ m, (l.addOption o).2 = some (CmdlpError.optionExist m)) ∧
    (∀ (l : OptionList) (o : Opt), o.isSeparator = false → o.opt_long = "" →
        (∃ p ∈ l.options, p.opt_long = "") →
        (l.addOption o).1 = l ∧ ∃ m, (l.addOption o).2 = some (CmdlpError.optionExist m)) ∧
    (∀ (l : OptionList) (desc : String) (o : Opt), o.isSeparator = false →
        o.opt_short = "" ∨ o.opt_long = "" →
        ((l.addOption (.separator ⟨desc⟩)).1.addOption o).1 = (l.addOption (.separator ⟨desc⟩)).1 ∧
          ∃ m, ((l.addOption (.separator ⟨desc⟩)).1.addOption o).2
            = some (CmdlpError.optionExist m)) ∧
    (((OptionList.mk [] 0 0 0).addOption (.value ⟨"", "--alpha", "A", false, ""⟩)).2 = none ∧
      ((((OptionList.mk [] 0 0 0).addOption (.value ⟨"", "--alpha", "A", false, ""⟩)).1).addOption
          (.value ⟨"", "--beta", "B", false, ""⟩)).2
        = some (.optionExist (optionExistMsg (.value ⟨"", "--beta", "B", false, ""⟩)
            (.value ⟨"", "--alpha", "A", false, ""⟩)))) := by
  have hsep : ∀ (l : OptionList) (desc : String),
      (l.addOption (.separator ⟨desc⟩)).1.options = l.options ++ [.separator ⟨desc⟩] := by
    intro l desc
    simp [OptionList.addOption, Opt.isSeparator]
  refine ⟨?_, ?_, ?_, by decide, by decide⟩
  · intro l o ho hshort ⟨p, hp, hp0⟩
    exact addOption_dup l o ho ⟨p, hp, Or.inl (by rw [hp0, hshort])⟩
  · intro l o ho hlong ⟨p, hp, hp0⟩
    exact addOption_dup l o ho ⟨p, hp, Or.inr (by rw [hp0, hlong])⟩
  · intro l desc o ho hor
    refine addOption_dup _ o ho ⟨.separator ⟨desc⟩, ?_, ?_⟩
    · rw [hsep]; exact List.mem_append_right _ (List.mem_singleton.mpr rfl)
    · rcases hor with h | h
      · exact Or.inl (by rw [h]; rfl)
      · exact Or.inr (by rw [h]; rfl)

/-- Witness for C10 at a concrete registry containing a separator. -/
theorem C10_witness :
    (((OptionList.mk [] 0 0 0).addOption (.separator ⟨"Section"⟩)).1.addOption
        (.value ⟨"", "--alpha", "A", false, ""⟩)).1
      = ((OptionList.mk [] 0 0 0).addOption (.separator ⟨"Section"⟩)).1 ∧
    ∃ m, (((OptionList.mk [] 0 0 0).addOption (.separator ⟨"Section"⟩)).1.addOption
        (.value ⟨"", "--alpha", "A", false, ""⟩)).2 = some (CmdlpError.optionExist m) :=
  C10_empty_name_collisions.2.2.1 (OptionList.mk [] 0 0 0) "Section" _ (by decide)
    (Or.inl rfl)

/-! ## Claims C8 and C9 -/

/-- C8: string-typed retrieval is total up to the not-found error — for
every registry and name it either returns a stored representation or fails
with the `std::out_of_range` not-found error (never any other error); list
retrieval succeeds exactly when the named option is a registered
`PositionalList` and fails with the not-found error otherwise.  On the
sample registry: a `ValueOption` yields its raw stored string, a
`ToggleOption` renders as `"true"`/`"false"`, a `MultiOption` yields its
selected value, a `PositionalList` is not string-retrievable (not-found
error), and list retrieval yields the stored values exactly for the
`PositionalList`. -/
theorem C8_retrieval_behaviour :
    (∀ (l : OptionList) (name : String),
        (∃ s, l.getOptionString name = .ok s) ∨
          (∃ m, l.getOptionString name = .error (.outOfRange m))) ∧
    (∀ (l : OptionList) (name : String),
        (∃ vs, l.getOptionValues name = .ok vs) ↔ ∃ pl, l.find name = some (.plist pl)) ∧
    (∀ (l : OptionList) (name : String),
        (∃ vs, l.getOptionValues name = .ok vs) ∨
          (∃ m, l.getOptionValues name = .error (.outOfRange m))) ∧
    (sampleRegistry.getOptionString "--string" = .ok "hello" ∧
      sampleRegistry.getOptionString "--verbose" = .ok "false" ∧
      OptionList.getOptionString ⟨[.toggle ⟨"-t", "--tog", "T", true⟩], 0, 0, 0⟩ "-t" = .ok "true" ∧
      sampleRegistry.getOptionString "--mode" = .ok "manual" ∧
      sampleRegistry.getOptionString "--input" = .ok "in.txt" ∧
      sampleRegistry.getOptionString "--files" = .error (.outOfRange (notFoundMsg "--files")) ∧
      sampleRegistry.getOptionString "--nope" = .error (.outOfRange (notFoundMsg "--nope")) ∧
      sampleRegistry.getOptionValues "--files" = .ok ["f1", "f2"] ∧
      sampleRegistry.getOptionValues "--mode" = .error (.outOfRange (notFoundMsg "--mode")) ∧
      sampleRegistry.getOptionValues "--nope" = .error (.outOfRange (notFoundMsg "--nope"))) := by
  refine ⟨?_, ?_, ?_, by decide⟩
  · intro l name
    cases hf : l.find name with
    | none => exact Or.inr ⟨notFoundMsg name, by simp [OptionList.getOptionString, hf]⟩
    | some o =>
      cases o with
      | value v => exact Or.inl ⟨v.value, by simp [OptionList.getOptionString, hf]⟩
      | toggle t =>
        exact Or.inl ⟨if t.toggled then "true" else "false",
          by simp [OptionList.getOptionString, hf]⟩
      | multi m => exact Or.inl ⟨m.selected_value, by simp [OptionList.getOptionString, hf]⟩
      | positional p => exact Or.inl ⟨p.value, by simp [OptionList.getOptionString, hf]⟩
      | plist pl => exact Or.inr ⟨notFoundMsg name, by simp [OptionList.getOptionString, hf]⟩
      | separator s =>
        exact Or.inr ⟨notFoundMsg name, by simp [OptionList.getOptionString, hf]⟩
  · intro l name
    constructor
    · rintro ⟨vs, hvs⟩
      cases hf : l.find name with
      | none => simp [OptionList.getOptionValues, hf] at hvs
      | some o =>
        cases o with
        | plist pl => exact ⟨pl, rfl⟩
        | value v => simp [OptionList.getOptionValues, hf] at hvs
        | toggle t => simp [OptionList.getOptionValues, hf] at hvs
        | multi m => simp [OptionList.getOptionValues, hf] at hvs
        | positional p => simp [OptionList.getOptionValues, hf] at hvs
        | separator s => simp [OptionList.getOptionValues, hf] at hvs
    · rintro ⟨pl, hpl⟩
      exact ⟨pl.values, by simp [OptionList.getOptionValues, hpl]⟩
  · intro l name
    cases hf : l.find name with
    | none => exact Or.inr ⟨notFoundMsg name, by simp [OptionList.getOptionValues, hf]⟩
    | some o =>
      cases o with
      | plist pl => exact Or.inl ⟨pl.values, by simp [OptionList.getOptionValues, hf]⟩
      | value v => exact Or.inr ⟨notFoundMsg name, by simp [OptionList.getOptionValues, hf]⟩
      | toggle t => exact Or.inr ⟨notFoundMsg name, by simp [OptionList.getOptionValues, hf]⟩
      | multi m => exact Or.inr ⟨notFoundMsg name, by simp [OptionList.getOptionValues, hf]⟩
      | positional p =>
        exact Or.inr ⟨notFoundMsg name, by simp [OptionList.getOptionValues, hf]⟩
      | separator s =>
        exact Or.inr ⟨notFoundMsg name, by simp [OptionList.getOptionValues, hf]⟩

/-- C9: boolean retrieval accepts only the literal rendered strings
`"true"`/`"false"` (case-sensitive): whenever it succeeds, the named option
is a `ToggleOption` whose state matches the result, or a `ValueOption`
whose stored string is literally `"true"` or `"false"`; a found
`ValueOption` holding any other string fails with `BadConversion`.
Concrete instances: a `ValueOption` storing `"maybe"` raises the
conversion error, a toggled `ToggleOption` yields `true`. -/
theorem C9_bool_conversion :
    (∀ (l : OptionList) (name : String) (b : Bool),
        l.getOptionBool name = .ok b →
          (∃ t, l.find name = some (.toggle t) ∧ t.toggled = b) ∨
            (∃ v, l.find name = some (.value v) ∧ v.value = (if b then "true" else "false"))) ∧
    (∀ (l : OptionList) (name : String) (v : ValueOption),
        l.find name = some (.value v) → v.value ≠ "true" → v.value ≠ "false" →
          l.getOptionBool name = .error (.badConversion (boolConvMsg v.value))) ∧
    (OptionList.getOptionBool ⟨[.value ⟨"-s", "--string", "S", false, "maybe"⟩], 0, 0, 0⟩ "--string"
        = .error (.badConversion (boolConvMsg "maybe")) ∧
      OptionList.getOptionBool ⟨[.toggle ⟨"-v", "--verbose", "V", true⟩], 0, 0, 0⟩ "--verbose"
        = .ok true) := by
  refine ⟨?_, ?_, by decide⟩
  · intro l name b h
    cases hf : l.find name with
    | none => simp [OptionList.getOptionBool, hf] at h
    | some o =>
      simp only [OptionList.getOptionBool, hf] at h
      cases o with
      | toggle t =>
        refine Or.inl ⟨t, rfl, ?_⟩
        cases ht : t.toggled with
        | false =>
          simp [ht] at h
          subst h
          rfl
        | true =>
          simp [ht] at h
          subst h
          rfl
      | value v =>
        refine Or.inr ⟨v, rfl, ?_⟩
        by_cases h1 : v.value = "true"
        · simp [h1] at h
          subst h
          simpa using h1
        · by_cases h2 : v.value = "false"
          · simp [h1, h2] at h
            subst h
            simpa using h2
          · simp [h1, h2] at h
      | multi m => simp at h
      | positional p => simp at h
      | plist pl => simp at h
      | separator s => simp at h
  · intro l name v hf h1 h2
    simp [OptionList.getOptionBool, hf, h1, h2]

/-- Witness for C9 at a concrete registry. -/
theorem C9_witness :
    (∃ t, OptionList.find ⟨[.toggle ⟨"-v", "--verbose", "V", true⟩], 0, 0, 0⟩ "--verbose"
          = some (.toggle t) ∧ t.toggled = true) ∨
      (∃ v, OptionList.find ⟨[.toggle ⟨"-v", "--verbose", "V", true⟩], 0, 0, 0⟩ "--verbose"
          = some (.value v) ∧ v.value = (if true then "true" else "false")) :=
  C9_bool_conversion.1 ⟨[.toggle ⟨"-v", "--verbose", "V", true⟩], 0, 0, 0⟩ "--verbose" true
    (by decide)

/-! ## Claim C5 -/

/-- Decimal digits are in the `isNumber` character set. -/
theorem digit_mem_numberChars : ∀ c : Char, decDigits.contains c = true →
    numberChars.contains c = true := by
  intro c h
  simp only [decDigits, List.contains_cons, List.contains_nil, Bool.or_eq_true,
    beq_iff_eq, Bool.or_false] at h
  rcases h with h | h | h | h | h | h | h | h | h | h <;> subst h <;> rfl

/-- A spec mantissa is non-empty and uses only `isNumber` characters. -/
theorem mantissaOk_chars (cs : List Char) (h : mantissaOk cs = true) :
    cs ≠ [] ∧ ∀ c ∈ cs, numberChars.contains c = true := by
  unfold mantissaOk at h
  have hsplit := List.takeWhile_append_dropWhile (p := fun c => decDigits.contains c) (l := cs)
  cases hd : cs.dropWhile (fun c => decDigits.contains c) with
  | nil =>
    rw [hd] at h
    rw [hd, List.append_nil] at hsplit
    refine ⟨?_, ?_⟩
    · intro hnil; rw [hnil] at h; simp at h
    · intro c hc
      rw [← hsplit] at hc
      exact digit_mem_numberChars c (List.mem_takeWhile_imp hc)
  | cons d frac =>
    rw [hd] at h
    rw [hd] at hsplit
    rw [Bool.and_eq_true, Bool.and_eq_true] at h
    obtain ⟨⟨hdot, hfrac⟩, _⟩ := h
    have hdot' : d = '.' := by simpa using hdot
    refine ⟨?_, ?_⟩
    · intro hnil
      rw [hnil] at hd
      simp at hd
    · intro c hc
      rw [← hsplit] at hc
      rcases List.mem_append.mp hc with hc | hc
      · exact digit_mem_numberChars c (List.mem_takeWhile_imp hc)
      · rcases List.mem_cons.mp hc with rfl | hc
        · rw [hdot']; rfl
        · refine digit_mem_numberChars c ?_
          have := List.all_eq_true.mp hfrac
          simpa using this c hc

/-- A spec exponent uses only `isNumber` characters. -/
theorem exponentOk_chars (cs : List Char) (h : exponentOk cs = true) :
    ∀ c ∈ cs, numberChars.contains c = true := by
  unfold exponentOk at h
  cases cs with
  | nil => intro c hc; simp at hc
  | cons e rest =>
    rw [Bool.and_eq_true, Bool.and_eq_true] at h
    obtain ⟨⟨hE, _⟩, hall⟩ := h
    intro c hc
    rcases List.mem_cons.mp hc with rfl | hc
    · rw [Bool.or_eq_true] at hE
      rcases hE with h1 | h1
      · rw [show c = 'e' by simpa using h1]; rfl
      · rw [show c = 'E' by simpa using h1]; rfl
    · have hdig : ∀ x ∈ expDigits rest, decDigits.contains x = true := by
        intro x hx
        have := List.all_eq_true.mp hall
        simpa using this x hx
      by_cases hm : rest.head? == some '-'
      · cases rest with
        | nil => simp at hm
        | cons a tail =>
          have ha : a = '-' := by simpa using hm
          subst ha
          rcases List.mem_cons.mp hc with rfl | hc
          · rfl
          · refine digit_mem_numberChars c (hdig c ?_)
            simpa [expDigits] using hc
      · refine digit_mem_numberChars c (hdig c ?_)
        simpa [expDigits, hm] using hc

/-- A token matching the spec grammar is non-empty (after the optional
sign) and drawn from the `isNumber` character set. -/
theorem spec_chars (cs : List Char)
    (h : (mantissaOk (cs.takeWhile fun c => !(c == 'e' || c == 'E')) &&
          exponentOk (cs.dropWhile fun c => !(c == 'e' || c == 'E'))) = true) :
    cs ≠ [] ∧ ∀ c ∈ cs, numberChars.contains c = true := by
  rw [Bool.and_eq_true] at h
  obtain ⟨hm, he⟩ := h
  obtain ⟨hm1, hm2⟩ := mantissaOk_chars _ hm
  refine ⟨?_, ?_⟩
  · intro hnil; rw [hnil] at hm1; exact hm1 rfl
  · intro c hc
    rw [← List.takeWhile_append_dropWhile (p := fun c => !(c == 'e' || c == 'E')) (l := cs)] at hc
    rcases List.mem_append.mp hc with hc | hc
    · exact hm2 c hc
    · exact exponentOk_chars _ he c hc

/-- A token matching the spec number grammar satisfies `Tokenizer::isNumber`
(its characters are all drawn from `-.eE0123456789`). -/
theorem spec_isNumber (token : String) (h : isSignedNumberSpec token = true) :
    isNumber token = true := by
  simp only [isSignedNumberSpec] at h
  by_cases hs : token.toList.head? == some '-'
  · rw [if_pos hs] at h
    obtain ⟨hne, hmem⟩ := spec_chars _ h
    obtain ⟨c, cs', hc⟩ : ∃ c cs', token.toList = c :: cs' := by
      cases hcs : token.toList with
      | nil => rw [hcs] at hs; simp at hs
      | cons a b => exact ⟨a, b, rfl⟩
    have hcdash : c = '-' := by rw [hc] at hs; simpa using hs
    unfold isNumber
    rw [hc]
    simp only [List.isEmpty_cons, Bool.not_false, Bool.true_and, List.all_cons, Bool.and_eq_true]
    refine ⟨by rw [hcdash]; rfl, ?_⟩
    rw [List.all_eq_true]
    intro x hx
    have : x ∈ token.toList.tail := by rw [hc]; simpa using hx
    exact hmem x this
  · rw [if_neg hs] at h
    obtain ⟨hne, hmem⟩ := spec_chars _ h
    unfold isNumber
    rw [Bool.and_eq_true]
    refine ⟨by simpa [List.isEmpty_iff] using hne, ?_⟩
    rw [List.all_eq_true]
    exact fun x hx => hmem x hx

/-- C5 counterexample: the token `--` starts with `-` and is not parseable
as a signed number/decimal (it contains no digit), yet `Tokenizer::isOption`
classifies it as NOT an option, because `isNumber` only checks that every
character is drawn from `-.eE0123456789`. -/
theorem C5_counterexample :
    isOption "--" = false ∧ "--".toList.head? = some '-' ∧
      isSignedNumberSpec "--" = false := by
  exact ⟨rfl, rfl, rfl⟩

/-- C5 (amended): one direction of the claim holds — a token parseable as a
signed number/decimal is never classified as an option (in particular
`-3.14` is a value, not an option), and every token classified as an option
starts with `-` and is not a signed number.  The converse boundary is
character-set based: a token starting with `-` that is NOT classified as an
option consists entirely of characters from `-.eE0123456789` — not
necessarily a parseable number (e.g. `--`) — and conversely any token drawn
entirely from that character set is never classified as an option. -/
theorem C5_option_classification :
    (∀ token : String, isSignedNumberSpec token = true → isOption token = false) ∧
    (∀ token : String, isOption token = true →
        token.toList.head? = some '-' ∧ isSignedNumberSpec token = false) ∧
    (∀ token : String, token.toList.head? = some '-' → isOption token = false →
        token.toList.all (fun c => numberChars.contains c) = true) ∧
    (∀ token : String, token.toList.all (fun c => numberChars.contains c) = true →
        isOption token = false) := by
  refine ⟨?_, ?_, ?_, ?_⟩
  · intro token h
    unfold isOption
    rw [spec_isNumber token h]
    simp
  · intro token h
    unfold isOption at h
    rw [Bool.and_eq_true, Bool.and_eq_true] at h
    obtain ⟨⟨hE, hH⟩, hN⟩ := h
    refine ⟨by simpa using hH, ?_⟩
    cases hspec : isSignedNumberSpec token with
    | false => rfl
    | true =>
      rw [spec_isNumber token hspec] at hN
      simp at hN
  · intro token hh hopt
    unfold isOption at hopt
    have hne : token.toList ≠ [] := by
      intro hnil; rw [hnil] at hh; simp at hh
    have hE : token.toList.isEmpty = false := by simpa [List.isEmpty_iff] using hne
    have hH : (token.toList.head? == some '-') = true := by rw [hh]; rfl
    rw [hE, hH] at hopt
    simp only [Bool.not_false, Bool.true_and, Bool.and_true] at hopt
    have hnum : isNumber token = true := by
      cases hn : isNumber token with
      | true => rfl
      | false => rw [hn] at hopt; simp at hopt
    unfold isNumber at hnum
    rw [Bool.and_eq_true] at hnum
    exact hnum.2
  · intro token hall
    unfold isOption isNumber
    rw [hall]
    cases he : token.toList.isEmpty <;> simp [he]

/-- Witness for C5 at the concrete token `-3.14`. -/
theorem C5_witness : isOption "-3.14" = false :=
  C5_option_classification.1 "-3.14" (by decide)

/-! ## Claim C6 -/

/-- C6 counterexample: the option `-o` first occurs followed by the
option-like token `-x`, so the first occurrence carries no value; the
lookup nevertheless returns `val`, the value of the SECOND occurrence —
subsequent occurrences are not ignored. -/
theorem C6_counterexample :
    Tokenizer.getOption ["prog", "-o", "-x", "-o", "val"] "-o" = "val" ∧
      isOption "-x" = true := by
  exact ⟨rfl, rfl⟩

/-- C6 (amended): the tokenizer's value lookup returns the value of the
first occurrence that actually YIELDS a value — an exact match followed by
a non-option token, a `--name=value` form, or a `-xvalue` form — skipping
earlier occurrences that yield none; there is no aggregation across
occurrences, and when several occurrences yield values the first of them
wins (e.g. two valued exact matches return the first value). -/
theorem C6_first_value_wins :
    (∀ (tokens : List String) (option : String),
        Tokenizer.getOption tokens option =
          ((withNext tokens.tail).filterMap (fun p => tokenValue option p.1 p.2)).headD "") ∧
    Tokenizer.getOption ["prog", "-o", "v1", "-o", "v2"] "-o" = "v1" := by
  have hsingle : ∀ (option t : String),
      getOptionAux option [t] =
        (match tokenValue option t none with
         | some v => v
         | none => "") := by
    intro option t
    rw [getOptionAux, tokenValue]
    split_ifs <;> rfl
  have hcons : ∀ (option t n : String) (rest : List String),
      getOptionAux option (t :: n :: rest) =
        (match tokenValue option t (some n) with
         | some v => v
         | none => getOptionAux option (n :: rest)) := by
    intro option t n rest
    rw [getOptionAux, tokenValue]
    split_ifs <;> rfl
  have aux : ∀ (option : String) (ts : List String),
      getOptionAux option ts =
        ((withNext ts).filterMap (fun p => tokenValue option p.1 p.2)).headD "" := by
    intro option ts
    induction ts using withNext.induct with
    | case1 => rfl
    | case2 t =>
      rw [hsingle]
      cases htv : tokenValue option t none with
      | none => simp [withNext, List.filterMap_cons, htv]
      | some v => simp [withNext, List.filterMap_cons, htv]
    | case3 t n rest ih =>
      rw [hcons]
      cases htv : tokenValue option t (some n) with
      | none => simp [withNext, List.filterMap_cons, htv, ih]
      | some v => simp [withNext, List.filterMap_cons, htv]
  exact ⟨fun tokens option => aux option tokens.tail, rfl⟩

/-! ## Claim C1 -/

/-- An option-like token never enters the positional stream. -/
theorem streamOf_cons_skip1 (tg : List ToggleOption) (prev cur : String)
    (rest : List (String × String)) (h : isOption cur = true) :
    streamOf tg ((prev, cur) :: rest) = streamOf tg rest := by
  simp [streamOf, List.filterMap_cons, h]

/-- A token consumed as the value of an option-like non-toggle token never
enters the positional stream. -/
theorem streamOf_cons_skip2 (tg : List ToggleOption) (prev cur : String)
    (rest : List (String × String)) (h1 : isOption cur = false)
    (h2 : (isOption prev && !isToggle tg prev) = true) :
    streamOf tg ((prev, cur) :: rest) = streamOf tg rest := by
  cases hp : isOption prev with
  | false => rw [hp] at h2; simp at h2
  | true =>
    cases ht : isToggle tg prev with
    | false => simp [streamOf, List.filterMap_cons, h1, hp, ht]
    | true => rw [hp, ht] at h2; simp at h2

/-- Any other token is positional. -/
theorem streamOf_cons_keep (tg : List ToggleOption) (prev cur : String)
    (rest : List (String × String)) (h1 : isOption cur = false)
    (h2 : (isOption prev && !isToggle tg prev) = false) :
    streamOf tg ((prev, cur) :: rest) = cur :: streamOf tg rest := by
  cases hp : isOption prev with
  | false => simp [streamOf, List.filterMap_cons, h1, hp]
  | true =>
    cases ht : isToggle tg prev with
    | false => rw [hp, ht] at h2; simp at h2
    | true => simp [streamOf, List.filterMap_cons, h1, hp, ht]

/-- The loop of `parsePositionalOption` selects exactly the
`pos_arg_index - arg_index`-th token of the positional stream (and nothing
when the running counter already exceeds the cursor). -/
theorem findPositional_eq (tg : List ToggleOption) :
    ∀ (pairs : List (String × String)) (ai pi : Nat),
      findPositional tg pairs ai pi =
        if ai ≤ pi then (streamOf tg pairs)[pi - ai]? else none := by
  intro pairs
  induction pairs with
  | nil =>
    intro ai pi
    simp [findPositional, streamOf]
  | cons pc rest ih =>
    intro ai pi
    obtain ⟨prev, cur⟩ := pc
    rw [findPositional]
    by_cases h1 : isOption cur = true
    · rw [if_pos h1, streamOf_cons_skip1 tg prev cur rest h1]
      exact ih ai pi
    · have h1' : isOption cur = false := by revert h1; cases isOption cur <;> simp
      rw [if_neg h1]
      by_cases h2 : (isOption prev && !isToggle tg prev) = true
      · rw [if_pos h2, streamOf_cons_skip2 tg prev cur rest h1' h2]
        exact ih ai pi
      · have h2' : (isOption prev && !isToggle tg prev) = false := by
          revert h2; cases (isOption prev && !isToggle tg prev) <;> simp
        rw [if_neg h2, streamOf_cons_keep tg prev cur rest h1' h2']
        by_cases h3 : (ai == pi) = true
        · rw [if_pos h3]
          have heq : ai = pi := by simpa using h3
          subst heq
          simp
        · rw [if_neg h3, ih]
          have hne : ai ≠ pi := by simpa using h3
          rcases Nat.lt_or_ge ai pi with hlt | hge
          · rw [if_pos (Nat.succ_le_of_lt hlt), if_pos (Nat.le_of_lt hlt)]
            have hidx : pi - ai = (pi - (ai + 1)) + 1 := by omega
            rw [hidx, List.getElem?_cons_succ]
          · have hgt : pi < ai := by omega
            rw [if_neg (by omega), if_neg (by omega)]

/-- The loop of `parsePositionalList` appends exactly the positional-stream
tokens from index `pos_arg_index - arg_index` onwards. -/
theorem collectPositional_values (tg : List ToggleOption) :
    ∀ (pairs : List (String × String)) (ai pi : Nat) (vals : List String) (lv : Nat),
      ai ≤ pi →
      (collectPositional tg pairs ai pi vals lv).1 =
        vals ++ (streamOf tg pairs).drop (pi - ai) := by
  intro pairs
  induction pairs with
  | nil =>
    intro ai pi vals lv _
    simp [collectPositional, streamOf]
  | cons pc rest ih =>
    intro ai pi vals lv hle
    obtain ⟨prev, cur⟩ := pc
    rw [collectPositional]
    by_cases h1 : isOption cur = true
    · rw [if_pos h1, streamOf_cons_skip1 tg prev cur rest h1]
      exact ih ai pi vals lv hle
    · have h1' : isOption cur = false := by revert h1; cases isOption cur <;> simp
      rw [if_neg h1]
      by_cases h2 : (isOption prev && !isToggle tg prev) = true
      · rw [if_pos h2, streamOf_cons_skip2 tg prev cur rest h1' h2]
        exact ih ai pi vals lv hle
      · have h2' : (isOption prev && !isToggle tg prev) = false := by
          revert h2; cases (isOption prev && !isToggle tg prev) <;> simp
        rw [if_neg h2, streamOf_cons_keep tg prev cur rest h1' h2']
        by_cases h3 : ai ≥ pi
        · have heq : ai = pi := Nat.le_antisymm hle h3
          rw [if_pos h3, ih _ _ _ _ (by omega)]
          subst heq
          simp
        · rw [if_neg h3, ih _ _ _ _ (by omega)]
          have hidx : pi - ai = (pi - (ai + 1)) + 1 := by omega
          rw [hidx, List.drop_succ_cons]

/-- C1: for every argument vector whose positional token stream is
`["a", "b", "c", "d"]` and a registry consisting of the required positional
options `P1`, `P2` followed by a `PositionalList` `L` (in that registration
order), `parseOptions` succeeds, assigns `P1 := "a"` and `P2 := "b"`
(strictly left-to-right over the stream, strictly registration-order over
the declarations), and `L` absorbs the remaining slots, appending
`["c", "d"]` to its values. -/
theorem C1_positional_assignment
    (tokens : List String) (P1 P2 : PositionalOption) (L : PositionalList)
    (ol : OptionList) (b : Bool)
    (hreg : ol.options = [.positional P1, .positional P2, .plist L])
    (h1 : P1.required = true) (h2 : P2.required = true)
    (hs : positionalStream tokens [] = ["a", "b", "c", "d"]) :
    ∃ ol' : OptionList,
      Parser.parseOptions ⟨tokens, ol, b⟩ = .ok ⟨tokens, ol', true⟩ ∧
        ol'.options =
          [.positional { P1 with value := "a" }, .positional { P2 with value := "b" },
           .plist { L with values := L.values ++ ["c", "d"] }] := by
  have hstream : streamOf [] (tokens.zip tokens.tail) = ["a", "b", "c", "d"] := hs
  have hp0 : parsePositionalOption tokens [] P1 0 = ({ P1 with value := "a" }, 1, some 1) := by
    unfold parsePositionalOption
    rw [findPositional_eq, if_pos (by omega), hstream]
    rfl
  have hp1 : parsePositionalOption tokens [] P2 1 = ({ P2 with value := "b" }, 2, some 1) := by
    unfold parsePositionalOption
    rw [findPositional_eq, if_pos (by omega), hstream]
    rfl
  have hplv : ∀ lv, (parsePositionalList tokens [] L 2 lv).1
      = { L with values := L.values ++ ["c", "d"] } := by
    intro lv
    show ({ L with
        values := (collectPositional [] (tokens.zip tokens.tail) 0 2 L.values lv).1 }
      : PositionalList) = _
    rw [collectPositional_values _ _ _ _ _ _ (by omega), hstream]
    simp
  have htog1 : getToggleOptions [Opt.positional P1, Opt.positional P2, Opt.plist L] = [] := rfl
  have htog2 : getToggleOptions
      [Opt.positional { P1 with value := "a" }, Opt.positional P2, Opt.plist L] = [] := rfl
  have htog3 : getToggleOptions
      [Opt.positional { P1 with value := "a" }, Opt.positional { P2 with value := "b" },
       Opt.plist L] = [] := rfl
  have hr : parseLoop tokens [] [.positional P1, .positional P2, .plist L]
      ol.longest_value 0 =
        .ok ([.positional { P1 with value := "a" }, .positional { P2 with value := "b" },
              .plist { L with values := L.values ++ ["c", "d"] }],
          (parsePositionalList tokens [] L 2 (max 1 (max 1 ol.longest_value))).2.2,
          (parsePositionalList tokens [] L 2 (max 1 (max 1 ol.longest_value))).2.1) := by
    simp only [parseLoop, List.nil_append, htog1, hp0, List.singleton_append, htog2, hp1,
      List.cons_append, htog3, hplv]
  refine ⟨{ ol with
      options := [.positional { P1 with value := "a" }, .positional { P2 with value := "b" },
                  .plist { L with values := L.values ++ ["c", "d"] }]
      longest_value :=
        (parsePositionalList tokens [] L 2 (max 1 (max 1 ol.longest_value))).2.2 }, ?_, rfl⟩
  unfold Parser.parseOptions
  rw [show (Parser.mk tokens ol b).options = ol from rfl, hreg, hr]

/-- Witness for C1 at a concrete argument vector and registry. -/
theorem C1_witness :
    ∃ ol' : OptionList,
      Parser.parseOptions
          ⟨["prog", "a", "b", "c", "d"],
            ⟨[.positional ⟨"-in", "--input", "Input", true, ""⟩,
              .positional ⟨"-cfg", "--config", "Config", true, ""⟩,
              .plist ⟨"-f", "--files", "Files", false, []⟩], 0, 0, 0⟩, false⟩
        = .ok ⟨["prog", "a", "b", "c", "d"], ol', true⟩ ∧
        ol'.options =
          [.positional ⟨"-in", "--input", "Input", true, "a"⟩,
           .positional ⟨"-cfg", "--config", "Config", true, "b"⟩,
           .plist ⟨"-f", "--files", "Files", false, ["c", "d"]⟩] :=
  C1_positional_assignment ["prog", "a", "b", "c", "d"]
    ⟨"-in", "--input", "Input", true, ""⟩ ⟨"-cfg", "--config", "Config", true, ""⟩
    ⟨"-f", "--files", "Files", false, []⟩ _ false rfl rfl rfl (by decide)

end Cmdlp
